import Mathlib

/-!
Verification development for the external-service integration layer of the
gitready web application: importance ranking, file relevance selection,
rate governing, resilient fetch, bounded tree collection and the
contribution workflow.

Strings from the source are embedded as lists of characters (`Str`), so
that matching primitives (prefix, suffix, occurrence, splitting) can be
reasoned about by structural induction.  JavaScript regular expressions of
the source are anchored suffix/exact/occurrence tests and are translated
into these primitives; each translation is documented at its definition.
JavaScript numbers holding quota data are embedded as `Option Int`, where
`none` plays the role of NaN (every comparison with NaN is false).
-/

namespace GitReady

/-- Character-list strings used throughout the embedding. -/
abbrev Str := List Char

/-- Coerce a literal to a character-list string. -/
def strL (s : String) : Str := s.data

/-- Model of JavaScript toLowerCase (ASCII data in the source). -/
def lowerStr (s : Str) : Str := s.map Char.toLower

/-- Model of startsWith: the first argument occurs at the beginning of the second. -/
def strStarts : Str → Str → Bool
  | [], _ => true
  | _ :: _, [] => false
  | a :: as, b :: bs => a == b && strStarts as bs

/-- Model of endsWith: the first argument occurs at the end of the second. -/
def strEnds (pat s : Str) : Bool := strStarts pat.reverse s.reverse

/-- Model of String.includes: the first argument occurs somewhere in the second. -/
def strHas (pat : Str) : Str → Bool
  | [] => pat.isEmpty
  | b :: bs => strStarts pat (b :: bs) || strHas pat bs

/-- Model of path.split with separator slash.  Always returns a non-empty list. -/
def splitSlash : Str → List Str
  | [] => [[]]
  | c :: rest =>
    match splitSlash rest with
    | [] => [[c]]
    | h :: t => if c = '/' then [] :: h :: t else (c :: h) :: t

/-! ## Deep analyzer service: file relevance selection

Embedding of `src/lib/deep-analyzer-service.ts`. -/

/-- Directories skipped during analysis (SKIP_DIRECTORIES of the source). -/
def SKIP_DIRECTORIES : List Str :=
  [strL "node_modules", strL ".git", strL "dist", strL "build", strL "out",
   strL ".next", strL ".nuxt", strL "__pycache__", strL ".venv", strL "venv",
   strL "env", strL "virtualenv", strL "vendor", strL ".cache", strL "coverage",
   strL ".nyc_output", strL "target", strL ".idea", strL ".vscode",
   strL ".gradle", strL "bin", strL "obj", strL "public/assets",
   strL "static/assets", strL ".turbo"]

/-- Suffixes realising the anchored case-insensitive regexes of
SKIP_FILE_PATTERNS.  Each source pattern is of the shape `X$` with `X` free
of unanchored metacharacters except extension alternations, which are
expanded; the pattern matches exactly the strings whose lowercase form ends
with one of these suffixes (the LICENSE pattern is treated separately). -/
def skipSuffixes : List Str :=
  [strL "package-lock.json", strL "yarn.lock", strL "pnpm-lock.yaml",
   strL ".min.js", strL ".min.css", strL ".map",
   strL ".woff", strL ".woff2", strL ".ttf", strL ".eot", strL ".otf",
   strL ".png", strL ".jpg", strL ".jpeg", strL ".gif", strL ".svg",
   strL ".ico", strL ".webp", strL ".avif",
   strL ".mp3", strL ".mp4", strL ".avi", strL ".mov", strL ".webm",
   strL ".zip", strL ".tar", strL ".gz", strL ".rar", strL ".7z",
   strL ".pdf", strL ".doc", strL ".docx", strL ".xls", strL ".xlsx",
   strL ".gitignore", strL ".npmrc", strL ".eslintcache",
   strL ".ds_store", strL "thumbs.db"]

/-- Some SKIP_FILE_PATTERNS regex matches the string.  The pattern
`LICENSE(\..*)?$` (case-insensitive, `.` not matching newline) matches a
newline-free string exactly when its lowercase form ends with "license" or
contains "license." somewhere (the `.*` then absorbs the rest of the line). -/
def skipFileHit (s : Str) : Bool :=
  let low := lowerStr s
  skipSuffixes.any (fun suf => strEnds suf low)
  || strEnds (strL "license") low || strHas (strL "license.") low

/-- shouldSkipPath of the source: a path is skipped when one of its
slash-separated segments is a skip directory, or when the final segment
(the filename) or the whole path matches a skip-file pattern. -/
def shouldSkipPath (path : Str) : Bool :=
  let parts := splitSlash path
  parts.any (fun part => SKIP_DIRECTORIES.contains part)
  || skipFileHit (parts.getLastD []) || skipFileHit path

/-- Exact lowercase forms of the fully anchored IMPORTANT_FILE_PATTERNS
(`^X$` with alternations expanded; case-insensitivity folds `App` into
`app`). -/
def importantExactNames : List Str :=
  [strL "readme.md", strL "package.json", strL "tsconfig.json",
   strL "setup.py", strL "requirements.txt", strL "pyproject.toml",
   strL "cargo.toml", strL "go.mod", strL "pom.xml",
   strL "build.gradle", strL "build.gradle.kts",
   strL "dockerfile", strL "docker-compose.yml", strL "docker-compose.yaml",
   strL "index.ts", strL "index.tsx", strL "index.js", strL "index.jsx", strL "index.py",
   strL "main.ts", strL "main.tsx", strL "main.js", strL "main.jsx", strL "main.py",
   strL "app.ts", strL "app.tsx", strL "app.js", strL "app.jsx", strL "app.py",
   strL "server.ts", strL "server.tsx", strL "server.js", strL "server.jsx", strL "server.py",
   strL "src/index.ts", strL "src/index.tsx", strL "src/index.js", strL "src/index.jsx",
   strL "src/main.ts", strL "src/main.tsx", strL "src/main.js", strL "src/main.jsx",
   strL "src/app.ts", strL "src/app.tsx", strL "src/app.js", strL "src/app.jsx"]

/-- isImportantFile of the source.  The workflow pattern
`^\.github\/workflows\/.+\.ya?ml$` requires the fixed prefix, one of the two
extensions as suffix, and at least one character in between, which for a
newline-free string is exactly the stated length bound. -/
def isImportantFile (path : Str) : Bool :=
  let low := lowerStr path
  importantExactNames.contains low
  || (strStarts (strL ".github/workflows/") low
      && ((strEnds (strL ".yml") low && decide (23 ≤ low.length))
          || (strEnds (strL ".yaml") low && decide (24 ≤ low.length))))

/-- matchesRole of the source, per-role regex sets translated to
suffix/occurrence/beginning tests on the lowercase path (all patterns carry
the case-insensitive flag). -/
def matchesRole (path : Str) (targetRole : Str) : Bool :=
  let low := lowerStr path
  if targetRole = strL "Frontend" then
    [strL ".tsx", strL ".jsx", strL ".vue", strL ".svelte", strL ".css",
     strL ".scss"].any (fun suf => strEnds suf low)
    || strHas (strL "tailwind.config") low
  else if targetRole = strL "Backend" then
    [strL ".py", strL ".go", strL ".java", strL ".rb", strL ".rs",
     strL ".php", strL ".prisma", strL "schema.graphql",
     strL "schema.gql"].any (fun suf => strEnds suf low)
    || [strL "server/", strL "api/", strL "routes/",
        strL "controllers/"].any (fun pre => strStarts pre low)
  else if targetRole = strL "Fullstack" then
    [strL ".tsx", strL ".jsx", strL ".vue", strL ".py",
     strL ".go"].any (fun suf => strEnds suf low)
    || [strL "server/", strL "api/", strL "client/", strL "frontend/",
        strL "backend/"].any (fun pre => strStarts pre low)
  else if targetRole = strL "DevOps" then
    strStarts (strL ".github/workflows/") low
    || strHas (strL "dockerfile") low || strHas (strL "docker-compose") low
    || strEnds (strL ".yml") low || strEnds (strL ".yaml") low
    || strHas (strL "terraform") low || strHas (strL "jenkinsfile") low
  else if targetRole = strL "Data Science" then
    [strL ".ipynb", strL ".py", strL "requirements.txt"].any
      (fun suf => strEnds suf low)
    || [strL "notebooks/", strL "data/", strL "models/"].any
        (fun pre => strStarts pre low)
  else false

/-- Kind of a repository tree entry. -/
inductive TreeKind where
  | blob
  | tree
deriving DecidableEq, Repr

/-- RepoTreeItem of the source; `size` is optional as in the API payload. -/
structure RepoTreeItem where
  path : Str
  type : TreeKind
  size : Option Nat
deriving DecidableEq, Repr

/-- Exclusion predicate of filterAndPrioritizeFiles: keep blobs that are
not skipped and not over 100KB.  `item.size && item.size > 100000` is
truthy exactly when the size is present and exceeds 100000 (a size of 0 is
falsy but also fails the comparison, so the guard reduces to the
comparison). -/
def keepFile (item : RepoTreeItem) : Bool :=
  item.type == TreeKind.blob
  && !(shouldSkipPath item.path)
  && !(match item.size with
       | some n => decide (100000 < n)
       | none => false)

/-- Score summand: +100 for an important file. -/
def importantBonus (item : RepoTreeItem) : Int :=
  if isImportantFile item.path then 100 else 0

/-- Score summand: +50 for a path matching the target role. -/
def roleBonus (item : RepoTreeItem) (targetRole : Str) : Int :=
  if matchesRole item.path targetRole then 50 else 0

/-- Score summand: +20 for a small file.  `item.size && item.size < 5000`
is truthy exactly when the size is present, non-zero and below 5000. -/
def sizeSmallBonus (item : RepoTreeItem) : Int :=
  match item.size with
  | some n => if n ≠ 0 ∧ n < 5000 then 20 else 0
  | none => 0

/-- Score summand: +30 for paths under src/, lib/ or app/
(`/^(src|lib|app)\//i`). -/
def srcRootBonus (item : RepoTreeItem) : Int :=
  if strStarts (strL "src/") (lowerStr item.path)
     || strStarts (strL "lib/") (lowerStr item.path)
     || strStarts (strL "app/") (lowerStr item.path) then 30 else 0

/-- Score summand: +25 for test files (`/\.(test|spec)\./i`). -/
def testFileBonus (item : RepoTreeItem) : Int :=
  if strHas (strL ".test.") (lowerStr item.path)
     || strHas (strL ".spec.") (lowerStr item.path) then 25 else 0

/-- File relevance score, the five accumulated summands of the source. -/
def scoreFile (item : RepoTreeItem) (targetRole : Str) : Int :=
  importantBonus item + roleBonus item targetRole + sizeSmallBonus item
  + srcRootBonus item + testFileBonus item

/-- Stable descending insertion by an integer key: an element is placed
before the first strictly smaller key, after all keys at least as large.
This realises the unique result of the ECMAScript stable Array sort with
comparator (a, b) => key b - key a. -/
def insDesc {α : Type} (key : α → Int) (x : α) : List α → List α
  | [] => [x]
  | y :: ys => if key y ≤ key x then x :: y :: ys else y :: insDesc key x ys

/-- Stable descending sort by an integer key. -/
def sortByDesc {α : Type} (key : α → Int) : List α → List α
  | [] => []
  | x :: xs => insDesc key x (sortByDesc key xs)

/-- filterAndPrioritizeFiles of the source: exclusion filter, score, stable
descending sort, truncation to maxFiles. -/
def filterAndPrioritizeFiles (tree : List RepoTreeItem) (targetRole : Str)
    (maxFiles : Nat) : List RepoTreeItem :=
  let filtered := tree.filter keepFile
  let scored := filtered.map (fun item => (item, scoreFile item targetRole))
  ((sortByDesc (fun p => p.2) scored).take maxFiles).map (fun p => p.1)

/-! ## Deep analyzer service: repository importance ranking

`calculateRepoImportance` reads the clock (`Date.now()`); the embedding
passes the clock reading `now` (milliseconds) explicitly, and `pushed_at`
as the epoch-millisecond value of the parsed date.
`daysSincePush = (now - pushed) / 86400000` compares against 30 and 90
days; division by the positive constant preserves order, so the embedding
compares millisecond differences against 30 and 90 days of milliseconds. -/

/-- Repository descriptor fields consumed by the ranker (GitHubRepo of the
store, as used by deep-analyzer-service). -/
structure GitHubRepo where
  stargazers_count : Int
  forks_count : Int
  language : Option Str
  pushed_at : Int
  topics : List Str
  has_readme : Bool
  has_tests : Bool
  has_ci : Bool
  commit_count : Int
deriving DecidableEq, Repr

/-- The distinct reason strings pushed by calculateRepoImportance, with
their interpolated payloads. -/
inductive Reason where
  | starsValidated (n : Int)
  | stars (n : Int)
  | forksUsed (n : Int)
  | forks (n : Int)
  | recentlyActive
  | activeLastQuarter
  | commitsSubstantial (n : Int)
  | commits (n : Int)
  | languageMatches (lang : Str) (role : Str)
  | hasReadme
  | hasTests
  | hasCI
  | usesTopics
deriving DecidableEq, Repr

/-- Importance score record of the source. -/
structure ImportantRepoScore where
  repo : GitHubRepo
  score : Int
  reasons : List Reason
deriving DecidableEq, Repr

/-- The fixed per-role language sets of calculateRepoImportance. -/
def roleLanguages : List (Str × List Str) :=
  [(strL "Frontend",
    [strL "TypeScript", strL "JavaScript", strL "Vue", strL "CSS", strL "SCSS"]),
   (strL "Backend",
    [strL "Python", strL "Go", strL "Java", strL "Ruby", strL "Rust",
     strL "PHP", strL "C#"]),
   (strL "Fullstack",
    [strL "TypeScript", strL "JavaScript", strL "Python", strL "Go"]),
   (strL "DevOps", [strL "Shell", strL "Python", strL "Go", strL "HCL"]),
   (strL "Data Science",
    [strL "Python", strL "R", strL "Jupyter Notebook", strL "Julia"])]

/-- `repo.language && roleLanguages[targetRole]?.includes(repo.language)`:
the language is present and truthy (non-empty), the role is a key of the
record, and the language is in that set. -/
def languageMatchesRole (language : Option Str) (targetRole : Str) : Bool :=
  match language with
  | none => false
  | some lang =>
    !lang.isEmpty &&
    (((roleLanguages.find? (fun p => p.1 == targetRole)).map
        (fun p => p.2.contains lang)).getD false)

/-- Score after the stars signal (the running `score` variable after the
first if-statement of calculateRepoImportance). -/
def scoreStars (repo : GitHubRepo) : Int :=
  if repo.stargazers_count ≥ 10 then 0 + 30
  else if repo.stargazers_count ≥ 3 then 0 + 15 else 0

/-- Score after the forks signal. -/
def scoreForks (repo : GitHubRepo) : Int :=
  if repo.forks_count ≥ 5 then scoreStars repo + 25
  else if repo.forks_count ≥ 2 then scoreStars repo + 10 else scoreStars repo

/-- Score after the recency signal. -/
def scoreRecency (repo : GitHubRepo) (now : Int) : Int :=
  if now - repo.pushed_at < 30 * 86400000 then scoreForks repo + 20
  else if now - repo.pushed_at < 90 * 86400000 then scoreForks repo + 10
  else scoreForks repo

/-- Score after the commit-count signal. -/
def scoreCommits (repo : GitHubRepo) (now : Int) : Int :=
  if repo.commit_count ≥ 50 then scoreRecency repo now + 20
  else if repo.commit_count ≥ 20 then scoreRecency repo now + 10
  else scoreRecency repo now

/-- Score after the language-role signal. -/
def scoreLanguage (repo : GitHubRepo) (targetRole : Str) (now : Int) : Int :=
  if languageMatchesRole repo.language targetRole then
    scoreCommits repo now + 15
  else scoreCommits repo now

/-- Score after the README signal. -/
def scoreReadme (repo : GitHubRepo) (targetRole : Str) (now : Int) : Int :=
  if repo.has_readme then scoreLanguage repo targetRole now + 10
  else scoreLanguage repo targetRole now

/-- Score after the tests signal. -/
def scoreTests (repo : GitHubRepo) (targetRole : Str) (now : Int) : Int :=
  if repo.has_tests then scoreReadme repo targetRole now + 15
  else scoreReadme repo targetRole now

/-- Score after the CI signal. -/
def scoreCI (repo : GitHubRepo) (targetRole : Str) (now : Int) : Int :=
  if repo.has_ci then scoreTests repo targetRole now + 10
  else scoreTests repo targetRole now

/-- Final score, after the topics signal. -/
def scoreTopics (repo : GitHubRepo) (targetRole : Str) (now : Int) : Int :=
  if repo.topics.length > 0 then scoreCI repo targetRole now + 5
  else scoreCI repo targetRole now

/-- The reasons list accumulated by the same sequence of pushes. -/
def importanceReasons (repo : GitHubRepo) (targetRole : Str)
    (now : Int) : List Reason :=
  (if repo.stargazers_count ≥ 10 then [Reason.starsValidated repo.stargazers_count]
   else if repo.stargazers_count ≥ 3 then [Reason.stars repo.stargazers_count]
   else [])
  ++ (if repo.forks_count ≥ 5 then [Reason.forksUsed repo.forks_count]
      else if repo.forks_count ≥ 2 then [Reason.forks repo.forks_count] else [])
  ++ (if now - repo.pushed_at < 30 * 86400000 then [Reason.recentlyActive]
      else if now - repo.pushed_at < 90 * 86400000 then [Reason.activeLastQuarter]
      else [])
  ++ (if repo.commit_count ≥ 50 then [Reason.commitsSubstantial repo.commit_count]
      else if repo.commit_count ≥ 20 then [Reason.commits repo.commit_count]
      else [])
  ++ (if languageMatchesRole repo.language targetRole then
        [Reason.languageMatches (repo.language.getD []) targetRole] else [])
  ++ (if repo.has_readme then [Reason.hasReadme] else [])
  ++ (if repo.has_tests then [Reason.hasTests] else [])
  ++ (if repo.has_ci then [Reason.hasCI] else [])
  ++ (if repo.topics.length > 0 then [Reason.usesTopics] else [])

/-- calculateRepoImportance of the source: the score accumulated signal by
signal in source order (the stage functions above), with the reasons
pushed by the taken branches. -/
def calculateRepoImportance (repo : GitHubRepo) (targetRole : Str)
    (now : Int) : ImportantRepoScore :=
  { repo := repo, score := scoreTopics repo targetRole now,
    reasons := importanceReasons repo targetRole now }

/-- rankReposByImportance of the source: score every descriptor, stable
descending sort by score, first `limit` entries (default 3). -/
def rankReposByImportance (repos : List GitHubRepo) (targetRole : Str)
    (limit : Nat) (now : Int) : List ImportantRepoScore :=
  (sortByDesc (fun s => s.score)
    (repos.map (fun repo => calculateRepoImportance repo targetRole now))).take limit

/-! Spec-side signal definitions, written from the words of the
specification (section 4.3) for the refinement comparison of claim C1. -/

/-- Spec wording: stars +30 if at least 10, else +15 if at least 3, else 0. -/
def specStarsSignal (repo : GitHubRepo) : Int :=
  if repo.stargazers_count ≥ 10 then 30
  else if repo.stargazers_count ≥ 3 then 15 else 0

/-- Spec wording: forks +25 if at least 5, else +10 if at least 2. -/
def specForksSignal (repo : GitHubRepo) : Int :=
  if repo.forks_count ≥ 5 then 25
  else if repo.forks_count ≥ 2 then 10 else 0

/-- Spec wording: recency +20 if pushed less than 30 days ago, else +10 if
less than 90 days. -/
def specRecencySignal (repo : GitHubRepo) (now : Int) : Int :=
  if now - repo.pushed_at < 30 * 86400000 then 20
  else if now - repo.pushed_at < 90 * 86400000 then 10 else 0

/-- Spec wording: commits +20 if at least 50, else +10 if at least 20. -/
def specCommitsSignal (repo : GitHubRepo) : Int :=
  if repo.commit_count ≥ 50 then 20
  else if repo.commit_count ≥ 20 then 10 else 0

/-- Spec wording: +15 when the language is in the fixed per-role set. -/
def specLanguageSignal (repo : GitHubRepo) (targetRole : Str) : Int :=
  if languageMatchesRole repo.language targetRole then 15 else 0

/-- Spec wording: +10 README, +15 tests, +10 CI, +5 non-empty topics. -/
def specArtifactSignals (repo : GitHubRepo) : Int :=
  (if repo.has_readme then 10 else 0) + (if repo.has_tests then 15 else 0)
  + (if repo.has_ci then 10 else 0)
  + (if repo.topics.length > 0 then 5 else 0)

/-- The spec total: the sum of the independent weighted signals. -/
def specImportanceTotal (repo : GitHubRepo) (targetRole : Str)
    (now : Int) : Int :=
  specStarsSignal repo + specForksSignal repo + specRecencySignal repo now
  + specCommitsSignal repo + specLanguageSignal repo targetRole
  + specArtifactSignals repo

/-- The worked example of the spec: 12 stars, 6 forks, pushed 10 days ago,
60 commits, matching language, README, tests, CI, non-empty topics. -/
def exampleRepo : GitHubRepo :=
  { stargazers_count := 12, forks_count := 6,
    language := some (strL "TypeScript"), pushed_at := 0,
    topics := [strL "web"], has_readme := true, has_tests := true,
    has_ci := true, commit_count := 60 }

/-- Clock reading ten days (in milliseconds) after the example push time. -/
def exampleNow : Int := 10 * 86400000

/-! ## GitHub service: rate governor

Embedding of the rate-limit machinery of `GitHubService`.  JavaScript
numbers entering through headers or the rate-limit JSON are embedded as
`JSNum := Option Int`, `none` standing for NaN; every JavaScript comparison
with NaN is false, which the comparison helpers reproduce.  The float
comparison `now / 1000 > reset` with integer operands is equivalent to
`now > 1000 * reset`. -/

/-- A JavaScript number that may be NaN. -/
abbrev JSNum := Option Int

/-- JavaScript strict less-than, false on NaN. -/
def jlt : JSNum → JSNum → Bool
  | some a, some b => decide (a < b)
  | _, _ => false

/-- JavaScript less-or-equal, false on NaN. -/
def jle : JSNum → JSNum → Bool
  | some a, some b => decide (a ≤ b)
  | _, _ => false

/-- RATE_LIMIT_THRESHOLD of the source. -/
def RATE_LIMIT_THRESHOLD : Int := 10

/-- CACHE_TTL of the source, in milliseconds. -/
def CACHE_TTL : Int := 60000

/-- The rateLimitCache record of the source. -/
structure RLCache where
  remaining : JSNum
  reset : JSNum
  limit : JSNum
  lastChecked : Int
deriving DecidableEq, Repr

/-- `now / 1000 > reset`: the reset time has passed (false when reset is
NaN). -/
def resetPassed (now : Int) (reset : JSNum) : Bool :=
  match reset with
  | some r => decide (1000 * r < now)
  | none => false

/-- Model of JavaScript parseInt on a header value: optional sign followed
by a maximal run of decimal digits; NaN when no digit leads. -/
def digitsToNat (ds : Str) : Nat :=
  ds.foldl (fun acc c => 10 * acc + (c.toNat - 48)) 0

/-- parseIntJS: see digitsToNat.  (Leading whitespace never occurs in the
quota headers and is not modelled.) -/
def parseIntJS (s : Str) : JSNum :=
  match s with
  | '-' :: rest =>
    let ds := rest.takeWhile Char.isDigit
    if ds.isEmpty then none else some (-(digitsToNat ds : Int))
  | '+' :: rest =>
    let ds := rest.takeWhile Char.isDigit
    if ds.isEmpty then none else some (digitsToNat ds)
  | _ =>
    let ds := s.takeWhile Char.isDigit
    if ds.isEmpty then none else some (digitsToNat ds)

/-- An HTTP response as consumed by the service: ok flag, status, status
text, and the three quota headers (absent header = null). -/
structure Response where
  ok : Bool
  status : Nat
  statusText : Str
  hRemaining : Option Str
  hReset : Option Str
  hLimit : Option Str
deriving DecidableEq, Repr

/-- Truthiness of headers.get: null and the empty string are falsy. -/
def headerTruthy : Option Str → Bool
  | some s => !s.isEmpty
  | none => false

/-- updateRateLimitFromHeaders of the source: when all three quota headers
are present and truthy the cache is replaced with their parsed values,
otherwise it is left unchanged. -/
def updateRateLimitFromHeaders (cache : Option RLCache) (now : Int)
    (r : Response) : Option RLCache :=
  if headerTruthy r.hRemaining && headerTruthy r.hReset
     && headerTruthy r.hLimit then
    some { remaining := parseIntJS (r.hRemaining.getD [])
           reset := parseIntJS (r.hReset.getD [])
           limit := parseIntJS (r.hLimit.getD [])
           lastChecked := now }
  else cache

/-- The rate JSON of a successful /rate_limit refresh. -/
structure RLData where
  remaining : JSNum
  reset : JSNum
  limit : JSNum
deriving DecidableEq, Repr

/-- Effect of getRateLimit on the cache: a failed call (`none`) throws
before the cache assignment and leaves it unchanged; a successful call
replaces the cache with the response data stamped at `now`. -/
def getRateLimitCache (refresh : Option RLData) (cache : Option RLCache)
    (now : Int) : Option RLCache :=
  match refresh with
  | none => cache
  | some d =>
    some { remaining := d.remaining, reset := d.reset, limit := d.limit,
           lastChecked := now }

/-- Outcome of checkRateLimit: either the threshold error thrown from the
valid-cache branch (which propagates to the caller), or a normal return
carrying the new cache and whether a refresh was attempted. -/
inductive CheckResult where
  | quotaErr (remaining : JSNum) (reset : JSNum)
  | ok (newCache : Option RLCache) (refreshed : Bool)
deriving DecidableEq, Repr

/-- The refresh branch of checkRateLimit: getRateLimit inside try; a fetch
failure is caught (fail open), and the threshold error thrown after a
successful refresh is caught by the same handler, so the branch always
returns normally with the cache getRateLimit left behind. -/
def refreshBranch (cache : Option RLCache) (now : Int)
    (refresh : Option RLData) : CheckResult :=
  CheckResult.ok (getRateLimitCache refresh cache now) true

/-- checkRateLimit of the source.  With a cache within the TTL: a passed
reset clears the cache and returns; otherwise remaining below the threshold
throws; otherwise the cache is kept.  With no cache or a stale one, the
refresh branch runs. -/
def checkRateLimit (cache : Option RLCache) (now : Int)
    (refresh : Option RLData) : CheckResult :=
  match cache with
  | some c =>
    if now - c.lastChecked < CACHE_TTL then
      if resetPassed now c.reset then CheckResult.ok none false
      else if jlt c.remaining (some RATE_LIMIT_THRESHOLD) then
        CheckResult.quotaErr c.remaining c.reset
      else CheckResult.ok (some c) false
    else refreshBranch (some c) now refresh
  | none => refreshBranch none now refresh

/-! ## GitHub service: resilient fetch -/

/-- Errors thrown by fetchWithRetry and its rate-limit gate. -/
inductive FetchErr where
  | notFound
  | rateLimitExceeded (reset : Option Str)
  | forbidden
  | apiError (statusText : Str)
  | transportErr
  | maxRetries
  | thresholdBlocked (remaining : JSNum) (reset : JSNum)
deriving DecidableEq, Repr

/-- Classification of a non-ok response inside the loop: 404 throws the
not-found error; 403 with remaining header exactly the string 0 throws the
rate-limit-exceeded error carrying the reset header; other 403 throws
forbidden; anything else throws the generic API error. -/
def classifyResponse (r : Response) : FetchErr :=
  if r.status == 404 then FetchErr.notFound
  else if r.status == 403 then
    if r.hRemaining == some (strL "0") then FetchErr.rateLimitExceeded r.hReset
    else FetchErr.forbidden
  else FetchErr.apiError r.statusText

/-- One attempt as seen by the loop: the fetch either fails at transport
level or yields a response. -/
inductive Attempt where
  | transportFail
  | response (r : Response)
deriving DecidableEq, Repr

/-- Outcome of fetchWithRetry: the returned response or the thrown error. -/
inductive FetchOutcome where
  | success (r : Response)
  | failure (e : FetchErr)
deriving DecidableEq, Repr

/-- Result of fetchWithRetry: how many fetches were issued, the final
cache, and the outcome. -/
structure FetchResult where
  requests : Nat
  cache : Option RLCache
  outcome : FetchOutcome
deriving DecidableEq, Repr

/-- The retry loop of fetchWithRetry.  `remAttempts` counts the loop
iterations still permitted (initially `retries`), so `remAttempts = 1`
corresponds to `i = retries - 1`, where any caught error is rethrown
instead of sleeping and retrying.  Every received response feeds the quota
headers into the cache before classification; a 404, 403 or other non-ok
classification is thrown inside try and hence caught and retried like a
transport failure.  `att i` is the behaviour of the i-th fetch and
`times i` the clock at the i-th response. -/
def fetchIter (att : Nat → Attempt) (times : Nat → Int) :
    Nat → Nat → Option RLCache → Nat → FetchResult
  | 0, _, cache, cnt => ⟨cnt, cache, FetchOutcome.failure FetchErr.maxRetries⟩
  | remAttempts + 1, i, cache, cnt =>
    match att i with
    | Attempt.transportFail =>
      if remAttempts = 0 then ⟨cnt + 1, cache, FetchOutcome.failure FetchErr.transportErr⟩
      else fetchIter att times remAttempts (i + 1) cache (cnt + 1)
    | Attempt.response r =>
      let cache2 := updateRateLimitFromHeaders cache (times i) r
      if r.ok then ⟨cnt + 1, cache2, FetchOutcome.success r⟩
      else if remAttempts = 0 then
        ⟨cnt + 1, cache2, FetchOutcome.failure (classifyResponse r)⟩
      else fetchIter att times remAttempts (i + 1) cache2 (cnt + 1)

/-- fetchWithRetry of the source: the rate-limit gate runs first (its
threshold error propagates and no fetch is issued); then the retry loop
runs with the cache the gate left behind. -/
def fetchWithRetry (att : Nat → Attempt) (times : Nat → Int) (now : Int)
    (refresh : Option RLData) (cache : Option RLCache)
    (retries : Nat) : FetchResult :=
  match checkRateLimit cache now refresh with
  | CheckResult.quotaErr rem rst =>
    ⟨0, cache, FetchOutcome.failure (FetchErr.thresholdBlocked rem rst)⟩
  | CheckResult.ok c _ => fetchIter att times retries 0 c 0

/-! ## Contribution workflow

Embedding of the POST handler of `src/app/api/apply/route.ts` up to the
pull-request creation.  Network effects are abstracted into an environment
of step outcomes; each outcome is the value returned, or the message of the
thrown error.  The trace of service operations is recorded to state the
order of the fallback steps. -/

/-- Service operations issued by the workflow, in the order recorded. -/
inductive Op where
  | opGetRepoDetails (owner repo : Str)
  | opCreateBranch (owner repo branch base : Str)
  | opGetAuthUser
  | opForkRepo (owner repo : Str)
  | opWaitForRepo (owner repo : Str)
  | opCommitFile (owner repo branch : Str)
  | opCreatePR (owner repo head base : Str)
deriving DecidableEq, Repr

/-- Step outcomes of one run: each field is the result of the corresponding
service call, error values carrying the thrown message.  The
createBranch outcomes are those of GitHubService.createBranch, which
already swallows a 422 (branch exists) as success. -/
structure ApplyEnv where
  detailsResult : Except Str (Option Str)
  createBranchUpstream : Except Str Unit
  authUserResult : Except Str (Option Str)
  forkResult : Except Str Unit
  waitResult : Except Str Unit
  forkDetailsResult : Except Str (Option Str)
  createBranchFork : Except Str Unit
  commitResult : Except Str Unit
  prResult : Except Str Unit
deriving Repr

/-- JavaScript `a || b` on an optional string: the default is taken when
the value is absent or empty. -/
def jsOr (o : Option Str) (d : Str) : Str :=
  match o with
  | some s => if s.isEmpty then d else s
  | none => d

/-- Errors surfaced by the workflow. -/
inductive WfErr where
  | authUserNotFound
  | stepFailed (msg : Str)
deriving DecidableEq, Repr

/-- Outcome of a successful workflow run. -/
structure WfOut where
  prHeadOwner : Str
  headRef : Str
  baseBranch : Str
  forkBase : Option Str
deriving DecidableEq, Repr

/-- Truthiness of me?.login: absent or empty login fails identity
resolution. -/
def loginTruthy : Option Str → Option Str
  | some l => if l.isEmpty then none else some l
  | none => none

/-- The workflow from repo-details lookup to pull-request creation.  On a
branch-creation failure whose message contains 403 the fork fallback runs:
resolve the authenticated user (terminal failure when no truthy login),
fork, wait for the fork, read the fork default branch, create the branch
there from `forkDefault || baseBranch`.  The pull-request head is the bare
branch name when the head owner is the upstream owner and
`headOwner:branch` otherwise. -/
def applyWorkflow (env : ApplyEnv) (owner repo branchName : Str) :
    List Op × Except WfErr WfOut :=
  match env.detailsResult with
  | Except.error msg => ([Op.opGetRepoDetails owner repo], Except.error (WfErr.stepFailed msg))
  | Except.ok defBr =>
    let baseBranch := jsOr defBr (strL "main")
    let ops0 := [Op.opGetRepoDetails owner repo,
                 Op.opCreateBranch owner repo branchName baseBranch]
    let finish := fun (ops : List Op) (prHeadOwner : Str) (forkBase : Option Str) =>
      match env.commitResult with
      | Except.error msg =>
        (ops ++ [Op.opCommitFile prHeadOwner repo branchName],
         Except.error (WfErr.stepFailed msg))
      | Except.ok _ =>
        let headRef := if prHeadOwner == owner then branchName
                       else prHeadOwner ++ ':' :: branchName
        let opsPR := ops ++ [Op.opCommitFile prHeadOwner repo branchName,
                             Op.opCreatePR owner repo headRef baseBranch]
        match env.prResult with
        | Except.error msg => (opsPR, Except.error (WfErr.stepFailed msg))
        | Except.ok _ =>
          (opsPR, Except.ok { prHeadOwner := prHeadOwner, headRef := headRef,
                              baseBranch := baseBranch, forkBase := forkBase })
    match env.createBranchUpstream with
    | Except.ok _ => finish ops0 owner none
    | Except.error msg =>
      if strHas (strL "403") msg then
        let ops1 := ops0 ++ [Op.opGetAuthUser]
        match env.authUserResult with
        | Except.error msg2 => (ops1, Except.error (WfErr.stepFailed msg2))
        | Except.ok login? =>
          match loginTruthy login? with
          | none => (ops1, Except.error WfErr.authUserNotFound)
          | some login =>
            match env.forkResult with
            | Except.error msg2 =>
              (ops1 ++ [Op.opForkRepo owner repo],
               Except.error (WfErr.stepFailed msg2))
            | Except.ok _ =>
              let ops2 := ops1 ++ [Op.opForkRepo owner repo,
                                   Op.opWaitForRepo login repo]
              match env.waitResult with
              | Except.error msg2 => (ops2, Except.error (WfErr.stepFailed msg2))
              | Except.ok _ =>
                let ops3 := ops2 ++ [Op.opGetRepoDetails login repo]
                match env.forkDetailsResult with
                | Except.error msg2 => (ops3, Except.error (WfErr.stepFailed msg2))
                | Except.ok forkDef =>
                  let forkBase := jsOr forkDef baseBranch
                  let ops4 := ops3 ++ [Op.opCreateBranch login repo branchName forkBase]
                  match env.createBranchFork with
                  | Except.error msg2 => (ops4, Except.error (WfErr.stepFailed msg2))
                  | Except.ok _ => finish ops4 login (some forkBase)
      else (ops0, Except.error (WfErr.stepFailed msg))

/-! ## Bounded tree collector

Embedding of GitHubService.getRepoCodeBundle.  The directory listing and
file-content calls are abstracted into oracles; a listing of `none` is a
fetch failure, which the source swallows, skipping the subtree. -/

/-- Type of a contents-API entry; values other than dir and file are
ignored by the collector. -/
inductive CEntryKind where
  | dir
  | file
  | other
deriving DecidableEq, Repr

/-- A contents-API entry: name, path, kind and optional size. -/
structure CEntry where
  name : Str
  path : Str
  kind : CEntryKind
  size : Option Nat
deriving DecidableEq, Repr

/-- The extension allow-list test: the lowercase name ends with one of the
allowed extensions. -/
def extAllowed (allowExt : List Str) (name : Str) : Bool :=
  allowExt.any (fun ext => strEnds ext (lowerStr name))

/-- The inner for-loop over one directory listing: breaks once the cap is
reached; directories are enqueued at the back; files pass the allow-list
and the size ceiling (`Number(it.size || 0)`). -/
def processItems (maxFiles maxFileSize : Nat) (allowExt : List Str) :
    List CEntry → List Str → List (Str × Nat) → Nat →
    List Str × List (Str × Nat) × Nat
  | [], queue, files, count => (queue, files, count)
  | it :: rest, queue, files, count =>
    if maxFiles ≤ count then (queue, files, count)
    else
      match it.kind with
      | CEntryKind.dir =>
        processItems maxFiles maxFileSize allowExt rest (queue ++ [it.path]) files count
      | CEntryKind.file =>
        if !extAllowed allowExt it.name then
          processItems maxFiles maxFileSize allowExt rest queue files count
        else if maxFileSize < it.size.getD 0 then
          processItems maxFiles maxFileSize allowExt rest queue files count
        else
          processItems maxFiles maxFileSize allowExt rest queue
            (files ++ [(it.path, it.size.getD 0)]) (count + 1)
      | CEntryKind.other =>
        processItems maxFiles maxFileSize allowExt rest queue files count

/-- The while-loop of the collector: runs while the queue is non-empty and
the count is below the cap; a failed listing skips the directory.  `fuel`
bounds the number of iterations of the model (the source relies on the
finiteness of the repository tree). -/
def collectLoop (listDir : Str → Option (List CEntry))
    (maxFiles maxFileSize : Nat) (allowExt : List Str) :
    Nat → List Str → List (Str × Nat) → Nat → List (Str × Nat)
  | 0, _, files, _ => files
  | _ + 1, [], files, _ => files
  | fuel + 1, path :: qrest, files, count =>
    if maxFiles ≤ count then files
    else
      match listDir path with
      | none => collectLoop listDir maxFiles maxFileSize allowExt fuel qrest files count
      | some items =>
        match processItems maxFiles maxFileSize allowExt items qrest files count with
        | (q2, fs2, c2) => collectLoop listDir maxFiles maxFileSize allowExt fuel q2 fs2 c2

/-- Decimal rendering of a number, for the section headers. -/
def natChars (n : Nat) : Str := Nat.toDigits 10 n

/-- One rendered per-file section of the code bundle. -/
def renderSection (path content : Str) : Str :=
  strL "\n\n--- " ++ path ++ strL " (" ++ natChars content.length
  ++ strL " bytes) ---\n" ++ content ++ strL "\n"

/-- The returned bundle: manifest, the per-file sections (path with its
truncated content), and the concatenated code text. -/
structure CodeBundle where
  manifest : List (Str × Nat)
  sections : List (Str × Str)
  code : Str
deriving DecidableEq, Repr

/-- getRepoCodeBundle of the source over the two oracles: bounded
collection from the root, then one content fetch per collected file, where
a null or empty content is skipped and the content is truncated to
maxFileSize characters. -/
def getRepoCodeBundle (listDir : Str → Option (List CEntry))
    (fileText : Str → Option Str) (maxFiles maxFileSize : Nat)
    (allowExt : List Str) (fuel : Nat) : CodeBundle :=
  let files := collectLoop listDir maxFiles maxFileSize allowExt fuel [[]] [] 0
  let sections := files.filterMap (fun f =>
    match fileText f.1 with
    | none => none
    | some content =>
      if content.isEmpty then none else some (f.1, content.take maxFileSize))
  { manifest := files, sections := sections,
    code := sections.foldl (fun acc s => acc ++ renderSection s.1 s.2) [] }

/-- Default file-count cap of getRepoCodeBundle. -/
def bundleMaxFilesDefault : Nat := 60

/-- Default per-file size ceiling of getRepoCodeBundle. -/
def bundleMaxFileSizeDefault : Nat := 100000

/-- Default extension allow-list of getRepoCodeBundle. -/
def bundleAllowExtDefault : List Str :=
  [strL ".md", strL ".js", strL ".ts", strL ".jsx", strL ".tsx", strL ".json",
   strL ".yml", strL ".yaml", strL ".py", strL ".java", strL ".kt", strL ".cs"]

/-! ## Concrete inputs used by counterexamples and witnesses -/

/-- A 404 response with no quota headers. -/
def resp404 : Response :=
  { ok := false, status := 404, statusText := strL "Not Found",
    hRemaining := none, hReset := none, hLimit := none }

/-- A response whose quota headers claim more remaining than the limit. -/
def respBadQuota : Response :=
  { ok := true, status := 200, statusText := strL "OK",
    hRemaining := some (strL "100"), hReset := some (strL "1"),
    hLimit := some (strL "50") }

/-- A response whose quota headers are well formed. -/
def respGoodQuota : Response :=
  { ok := true, status := 200, statusText := strL "OK",
    hRemaining := some (strL "4999"), hReset := some (strL "1700000000"),
    hLimit := some (strL "5000") }

/-- A valid cached snapshot below the threshold whose reset lies ahead. -/
def lowCache : RLCache :=
  { remaining := some 5, reset := some 1000000, limit := some 60,
    lastChecked := 0 }

/-- Fresh rate-limit data showing zero remaining. -/
def zeroRemaining : RLData :=
  { remaining := some 0, reset := some 1000000, limit := some 60 }

/-- A repository with no scoring signal except its push date. -/
def quietRepo : GitHubRepo :=
  { stargazers_count := 0, forks_count := 0, language := none,
    pushed_at := 0, topics := [], has_readme := false, has_tests := false,
    has_ci := false, commit_count := 0 }

/-- An environment in which upstream branch creation is rejected with a 403
and every fallback step succeeds. -/
def env403 : ApplyEnv :=
  { detailsResult := Except.ok (some (strL "main")),
    createBranchUpstream := Except.error (strL "GitHub API error 403: Forbidden "),
    authUserResult := Except.ok (some (strL "alice")),
    forkResult := Except.ok (), waitResult := Except.ok (),
    forkDetailsResult := Except.ok (some (strL "main")),
    createBranchFork := Except.ok (), commitResult := Except.ok (),
    prResult := Except.ok () }

/-- Root README item used by the selection witnesses. -/
def readmeItem : RepoTreeItem :=
  { path := strL "README.md", type := TreeKind.blob, size := some 10 }

/-- A test-directory item of the same size. -/
def testsItem : RepoTreeItem :=
  { path := strL "tests/example.test.js", type := TreeKind.blob,
    size := some 10 }

/-- A noise-directory item. -/
def noiseItem : RepoTreeItem :=
  { path := strL "node_modules/x.js", type := TreeKind.blob, size := some 10 }

/-- Small tree exercising the selection filter. -/
def witnessTree : List RepoTreeItem := [noiseItem, testsItem, readmeItem]

/-- One-directory listing oracle for the collector witness. -/
def witnessListDir (p : Str) : Option (List CEntry) :=
  if p.isEmpty then
    some [{ name := strL "a.ts", path := strL "a.ts",
            kind := CEntryKind.file, size := some 10 },
          { name := strL "big.ts", path := strL "big.ts",
            kind := CEntryKind.file, size := some 999999 },
          { name := strL "sub", path := strL "sub",
            kind := CEntryKind.dir, size := none }]
  else none

/-- Content oracle for the collector witness. -/
def witnessFileText (p : Str) : Option Str :=
  if p = strL "a.ts" then some (strL "export const a = 1") else none

/-! ## Helper lemmas: stable descending sort -/

theorem insDesc_perm {α : Type} (key : α → Int) (x : α) (l : List α) :
    List.Perm (insDesc key x l) (x :: l) := by
  induction l with
  | nil => simp [insDesc]
  | cons y ys ih =>
    simp only [insDesc]
    split
    · exact List.Perm.refl _
    · exact (List.Perm.cons y ih).trans (List.Perm.swap x y ys)

theorem sortByDesc_perm {α : Type} (key : α → Int) (l : List α) :
    List.Perm (sortByDesc key l) l := by
  induction l with
  | nil => simp [sortByDesc]
  | cons x xs ih =>
    exact (insDesc_perm key x (sortByDesc key xs)).trans (List.Perm.cons x ih)

theorem mem_insDesc {α : Type} {key : α → Int} {x a : α} {l : List α} :
    a ∈ insDesc key x l ↔ a = x ∨ a ∈ l := by
  rw [(insDesc_perm key x l).mem_iff, List.mem_cons]

theorem insDesc_pairwise {α : Type} {key : α → Int} {x : α} {l : List α}
    (h : List.Pairwise (fun a b => key b ≤ key a) l) :
    List.Pairwise (fun a b => key b ≤ key a) (insDesc key x l) := by
  induction l with
  | nil => simp [insDesc]
  | cons y ys ih =>
    rcases List.pairwise_cons.mp h with ⟨hy, hys⟩
    simp only [insDesc]
    split
    · refine List.pairwise_cons.mpr ⟨?_, h⟩
      intro b hb
      rcases List.mem_cons.mp hb with rfl | hb
      · assumption
      · exact le_trans (hy b hb) (by assumption)
    · refine List.pairwise_cons.mpr ⟨?_, ih hys⟩
      intro b hb
      rcases mem_insDesc.mp hb with rfl | hb
      · omega
      · exact hy b hb

theorem sortByDesc_pairwise {α : Type} (key : α → Int) (l : List α) :
    List.Pairwise (fun a b => key b ≤ key a) (sortByDesc key l) := by
  induction l with
  | nil => simp [sortByDesc]
  | cons x xs ih => exact insDesc_pairwise ih

theorem sortByDesc_sorted_getElem {α : Type} (key : α → Int) (l : List α)
    {i j : Nat} (hi : i < (sortByDesc key l).length)
    (hj : j < (sortByDesc key l).length) (hij : i < j) :
    key ((sortByDesc key l)[j]) ≤ key ((sortByDesc key l)[i]) :=
  (List.pairwise_iff_getElem.mp (sortByDesc_pairwise key l)) i j hi hj hij

/-! ## Helper lemmas: string primitives -/

theorem strStarts_iff {a b : Str} : strStarts a b = true ↔ a <+: b := by
  induction a generalizing b with
  | nil => simp [strStarts]
  | cons c cs ih =>
    cases b with
    | nil => simp [strStarts]
    | cons d ds =>
      simp [strStarts, List.cons_prefix_cons, ih, beq_iff_eq, and_comm]

theorem strEnds_iff {a b : Str} : strEnds a b = true ↔ a <:+ b := by
  rw [strEnds, strStarts_iff, List.reverse_prefix]

theorem strEnds_trans {a b c : Str} (h1 : strEnds a b = true)
    (h2 : strEnds b c = true) : strEnds a c = true :=
  strEnds_iff.mpr ((strEnds_iff.mp h1).trans (strEnds_iff.mp h2))

theorem strEnds_lowerStr {a b : Str} (h : strEnds a b = true) :
    strEnds (lowerStr a) (lowerStr b) = true :=
  strEnds_iff.mpr ((strEnds_iff.mp h).map Char.toLower)

theorem strStarts_head_ne {a b : Char} {as bs : Str} (h : a ≠ b) :
    strStarts (a :: as) (b :: bs) = false := by
  simp [strStarts, beq_eq_false_iff_ne, h]

theorem not_mem_of_take_two {l : List Str} {s : Str}
    (h : ∀ e ∈ l, e.take 2 ≠ s.take 2) : s ∉ l := by
  intro hs
  exact h s hs rfl

/-! ## Helper lemmas: scores of README.md versus files under tests/ -/

theorem lowerStr_tests_append (q : Str) :
    lowerStr (strL "tests/" ++ q) =
      't' :: 'e' :: 's' :: 't' :: 's' :: '/' :: lowerStr q := by
  unfold lowerStr
  rw [List.map_append]
  congr 1

theorem isImportantFile_tests (q : Str) :
    isImportantFile (strL "tests/" ++ q) = false := by
  have h1 := lowerStr_tests_append q
  have htake :
      (('t' : Char) :: 'e' :: 's' :: 't' :: 's' :: '/' :: lowerStr q).take 2
        = ['t', 'e'] := rfl
  have hmem :
      importantExactNames.contains
        (('t' : Char) :: 'e' :: 's' :: 't' :: 's' :: '/' :: lowerStr q) = false := by
    apply Bool.eq_false_iff.mpr
    intro hcontains
    refine not_mem_of_take_two ?_ (List.elem_iff.mp hcontains)
    rw [htake]
    decide
  have hpre :
      strStarts (strL ".github/workflows/")
        (('t' : Char) :: 'e' :: 's' :: 't' :: 's' :: '/' :: lowerStr q) = false := by
    have : strL ".github/workflows/" = '.' :: strL "github/workflows/" := rfl
    rw [this]
    exact strStarts_head_ne (by decide)
  simp only [isImportantFile, h1, hmem, hpre]
  simp

theorem srcRootBonus_tests (q : Str) (t : TreeKind) (sz : Option Nat) :
    srcRootBonus { path := strL "tests/" ++ q, type := t, size := sz } = 0 := by
  have h1 := lowerStr_tests_append q
  have hsrc :
      strStarts (strL "src/")
        (('t' : Char) :: 'e' :: 's' :: 't' :: 's' :: '/' :: lowerStr q) = false := by
    have : strL "src/" = 's' :: strL "rc/" := rfl
    rw [this]; exact strStarts_head_ne (by decide)
  have hlib :
      strStarts (strL "lib/")
        (('t' : Char) :: 'e' :: 's' :: 't' :: 's' :: '/' :: lowerStr q) = false := by
    have : strL "lib/" = 'l' :: strL "ib/" := rfl
    rw [this]; exact strStarts_head_ne (by decide)
  have happ :
      strStarts (strL "app/")
        (('t' : Char) :: 'e' :: 's' :: 't' :: 's' :: '/' :: lowerStr q) = false := by
    have : strL "app/" = 'a' :: strL "pp/" := rfl
    rw [this]; exact strStarts_head_ne (by decide)
  simp only [srcRootBonus, h1, hsrc, hlib, happ]
  simp

theorem roleBonus_le (item : RepoTreeItem) (role : Str) :
    0 ≤ roleBonus item role ∧ roleBonus item role ≤ 50 := by
  unfold roleBonus; split <;> omega

theorem testFileBonus_le (item : RepoTreeItem) :
    0 ≤ testFileBonus item ∧ testFileBonus item ≤ 25 := by
  unfold testFileBonus; split <;> omega

theorem sizeSmallBonus_le (item : RepoTreeItem) :
    0 ≤ sizeSmallBonus item ∧ sizeSmallBonus item ≤ 20 := by
  unfold sizeSmallBonus
  cases item.size with
  | none => simp
  | some n => split <;> omega

theorem srcRootBonus_nonneg (item : RepoTreeItem) : 0 ≤ srcRootBonus item := by
  unfold srcRootBonus; split <;> omega

/-- Sizes being equal, the size bonus is equal. -/
theorem sizeSmallBonus_congr {a b : RepoTreeItem} (h : a.size = b.size) :
    sizeSmallBonus a = sizeSmallBonus b := by
  unfold sizeSmallBonus; rw [h]

/-- Core inequality: a root README.md always outscores a same-size file
under tests/, whatever the role. -/
theorem scoreFile_readme_gt_tests (q : Str) (sz : Option Nat)
    (tt rt : TreeKind) (role : Str) :
    scoreFile { path := strL "tests/" ++ q, type := tt, size := sz } role
      < scoreFile { path := strL "README.md", type := rt, size := sz } role := by
  set titem : RepoTreeItem := { path := strL "tests/" ++ q, type := tt, size := sz }
  set ritem : RepoTreeItem := { path := strL "README.md", type := rt, size := sz }
  have himp_t : importantBonus titem = 0 := by
    simp only [importantBonus, titem, isImportantFile_tests]
    simp
  have himp_r : importantBonus ritem = 100 := by
    have : isImportantFile (strL "README.md") = true := by decide
    simp only [importantBonus, ritem, this]
    simp
  have hsrc_t : srcRootBonus titem = 0 := srcRootBonus_tests q tt sz
  have hsize : sizeSmallBonus titem = sizeSmallBonus ritem :=
    sizeSmallBonus_congr rfl
  have h1 := roleBonus_le titem role
  have h2 := roleBonus_le ritem role
  have h3 := testFileBonus_le titem
  have h4 := testFileBonus_le ritem
  have h5 := srcRootBonus_nonneg ritem
  unfold scoreFile
  omega

/-! ## Helper lemmas: structure of the selection output -/

/-- Every pair in the sorted scored list carries the score of its item. -/
theorem sorted_pair_snd (tree : List RepoTreeItem) (role : Str) :
    ∀ p ∈ sortByDesc (fun p : RepoTreeItem × Int => p.2)
        ((tree.filter keepFile).map (fun it => (it, scoreFile it role))),
      p.2 = scoreFile p.1 role := by
  intro p hp
  have hp2 := (sortByDesc_perm (fun p : RepoTreeItem × Int => p.2) _).mem_iff.mp hp
  rcases List.mem_map.mp hp2 with ⟨it, _, rfl⟩
  rfl

/-- In a list of item-score pairs that is descending in the score component
and whose second components are the scores of the first, every position of
a strictly higher-scoring item lies before every position of a
lower-scoring one. -/
theorem pos_lt_of_sorted {l : List (RepoTreeItem × Int)} {role : Str}
    (hpair : ∀ p ∈ l, p.2 = scoreFile p.1 role)
    (hsorted : List.Pairwise (fun a b : RepoTreeItem × Int => b.2 ≤ a.2) l)
    {x y : RepoTreeItem} (hxy : scoreFile y role < scoreFile x role)
    {i j : Nat} (hi : i < l.length) (hj : j < l.length)
    (hx : (l[i]).1 = x) (hy : (l[j]).1 = y) : i < j := by
  have hxs : (l[i]).2 = scoreFile x role := by
    rw [hpair (l[i]) (List.getElem_mem hi), hx]
  have hys : (l[j]).2 = scoreFile y role := by
    rw [hpair (l[j]) (List.getElem_mem hj), hy]
  rcases Nat.lt_trichotomy i j with h | h | h
  · exact h
  · exfalso
    subst h
    rw [hx] at hy
    subst hy
    omega
  · exfalso
    have hss := List.pairwise_iff_getElem.mp hsorted j i hj hi h
    omega

/-- Membership in the selection output comes from the filtered list. -/
theorem mem_filtered_of_mem_output {tree : List RepoTreeItem} {role : Str}
    {maxFiles : Nat} {item : RepoTreeItem}
    (h : item ∈ filterAndPrioritizeFiles tree role maxFiles) :
    item ∈ tree ∧ keepFile item = true := by
  unfold filterAndPrioritizeFiles at h
  rcases List.mem_map.mp h with ⟨p, hp, rfl⟩
  have hp2 : p ∈ sortByDesc (fun p : RepoTreeItem × Int => p.2)
      ((tree.filter keepFile).map (fun it => (it, scoreFile it role))) :=
    List.take_subset _ _ hp
  have hp3 := (sortByDesc_perm (fun p : RepoTreeItem × Int => p.2) _).mem_iff.mp hp2
  rcases List.mem_map.mp hp3 with ⟨it, hit, rfl⟩
  exact List.mem_filter.mp hit

/-- Claim C7: for every tree, role and cap, the output of
filterAndPrioritizeFiles has at most maxFiles items, contains only blob
entries, and contains no path with a noise-directory segment, no filename
matching a noise-file pattern, and no file with a recorded size above
100000 bytes. -/
theorem filterAndPrioritizeFiles_bounds (tree : List RepoTreeItem)
    (role : Str) (maxFiles : Nat) :
    (filterAndPrioritizeFiles tree role maxFiles).length ≤ maxFiles
    ∧ ∀ item ∈ filterAndPrioritizeFiles tree role maxFiles,
        item.type = TreeKind.blob
        ∧ (∀ seg ∈ splitSlash item.path, seg ∉ SKIP_DIRECTORIES)
        ∧ skipFileHit ((splitSlash item.path).getLastD []) = false
        ∧ ∀ sz, item.size = some sz → sz ≤ 100000 := by
  constructor
  · unfold filterAndPrioritizeFiles
    rw [List.length_map, List.length_take]
    omega
  · intro item hmem
    have hkeep := (mem_filtered_of_mem_output hmem).2
    simp only [keepFile, Bool.and_eq_true, beq_iff_eq, Bool.not_eq_true'] at hkeep
    obtain ⟨⟨htype, hskip⟩, hsize⟩ := hkeep
    simp only [shouldSkipPath, Bool.or_eq_false_iff] at hskip
    obtain ⟨⟨hseg, hfile⟩, _⟩ := hskip
    refine ⟨htype, ?_, hfile, ?_⟩
    · intro seg hsegmem hsegdir
      have := List.any_eq_false.mp hseg seg hsegmem
      exact this (List.elem_iff.mpr hsegdir)
    · intro sz hsz
      rw [hsz] at hsize
      simp only [decide_eq_false_iff_not, not_lt] at hsize
      exact hsize

/-- Claim C7 witness: concrete evaluation on a three-item tree with cap 1;
the README item is selected and satisfies the per-item guarantees. -/
theorem filterAndPrioritizeFiles_bounds_witness :
    (filterAndPrioritizeFiles witnessTree (strL "Frontend") 1).length ≤ 1
    ∧ readmeItem.type = TreeKind.blob
    ∧ skipFileHit ((splitSlash readmeItem.path).getLastD []) = false := by
  have h := (filterAndPrioritizeFiles_bounds witnessTree (strL "Frontend") 1).2
    readmeItem (by decide)
  exact ⟨(filterAndPrioritizeFiles_bounds witnessTree (strL "Frontend") 1).1,
    h.1, h.2.2.1⟩

/-- Length of the selection output: the cap against the sorted length. -/
theorem output_length (tree : List RepoTreeItem) (role : Str) (maxFiles : Nat) :
    (filterAndPrioritizeFiles tree role maxFiles).length
      = min maxFiles ((sortByDesc (fun p : RepoTreeItem × Int => p.2)
          ((tree.filter keepFile).map (fun it => (it, scoreFile it role)))).length) := by
  unfold filterAndPrioritizeFiles
  rw [List.length_map, List.length_take]

/-- Entries of the selection output are the item components of the sorted
scored list at the same position. -/
theorem output_getElem (tree : List RepoTreeItem) (role : Str)
    (maxFiles : Nat) {k : Nat}
    (hk : k < (filterAndPrioritizeFiles tree role maxFiles).length)
    (hk2 : k < (sortByDesc (fun p : RepoTreeItem × Int => p.2)
        ((tree.filter keepFile).map (fun it => (it, scoreFile it role)))).length) :
    (filterAndPrioritizeFiles tree role maxFiles)[k]
      = ((sortByDesc (fun p : RepoTreeItem × Int => p.2)
          ((tree.filter keepFile).map (fun it => (it, scoreFile it role))))[k]).1 := by
  unfold filterAndPrioritizeFiles at hk ⊢
  rw [List.getElem_map, List.getElem_take]

/-- Claim C8: whenever a tree contains a root README.md blob and a blob
under tests/ of the same size, the README scores strictly higher for every
role, is selected whenever the tests file is, and precedes it at every
pair of output positions. -/
theorem readme_ranked_above_tests
    (tree : List RepoTreeItem) (role : Str) (maxFiles : Nat)
    (rItem tItem : RepoTreeItem) (s : Option Nat) (q : Str)
    (hrmem : rItem ∈ tree) (hrp : rItem.path = strL "README.md")
    (hrt : rItem.type = TreeKind.blob) (hrs : rItem.size = s)
    (htmem : tItem ∈ tree) (htp : tItem.path = strL "tests/" ++ q)
    (htt : tItem.type = TreeKind.blob) (hts : tItem.size = s) :
    scoreFile tItem role < scoreFile rItem role
    ∧ (tItem ∈ filterAndPrioritizeFiles tree role maxFiles →
        rItem ∈ filterAndPrioritizeFiles tree role maxFiles)
    ∧ (∀ i j, ∀ hi : i < (filterAndPrioritizeFiles tree role maxFiles).length,
       ∀ hj : j < (filterAndPrioritizeFiles tree role maxFiles).length,
        (filterAndPrioritizeFiles tree role maxFiles)[i] = rItem →
        (filterAndPrioritizeFiles tree role maxFiles)[j] = tItem → i < j) := by
  have hscore : scoreFile tItem role < scoreFile rItem role := by
    obtain ⟨rp, rt2, rs2⟩ := rItem
    obtain ⟨tp, tt2, ts2⟩ := tItem
    simp only at hrp hrt hrs htp htt hts
    subst hrp hrs htp hts
    exact scoreFile_readme_gt_tests q _ tt2 rt2 role
  have hpair := sorted_pair_snd tree role
  have hsorted : List.Pairwise (fun a b : RepoTreeItem × Int => b.2 ≤ a.2)
      (sortByDesc (fun p : RepoTreeItem × Int => p.2)
        ((tree.filter keepFile).map (fun it => (it, scoreFile it role)))) :=
    sortByDesc_pairwise (fun p : RepoTreeItem × Int => p.2) _
  have hlen := output_length tree role maxFiles
  refine ⟨hscore, ?_, ?_⟩
  · -- inclusion: if the tests file survives, so does the README
    intro htin
    have hkeept := (mem_filtered_of_mem_output htin).2
    have hkeepr : keepFile rItem = true := by
      simp only [keepFile, Bool.and_eq_true, beq_iff_eq] at hkeept ⊢
      refine ⟨⟨hrt, ?_⟩, ?_⟩
      · rw [hrp]
        decide
      · rw [hrs]
        rw [hts] at hkeept
        exact hkeept.2
    have hrfil : rItem ∈ tree.filter keepFile := List.mem_filter.mpr ⟨hrmem, hkeepr⟩
    have hrsc : (rItem, scoreFile rItem role) ∈
        (tree.filter keepFile).map (fun it => (it, scoreFile it role)) :=
      List.mem_map.mpr ⟨rItem, hrfil, rfl⟩
    have hrsort : (rItem, scoreFile rItem role) ∈
        sortByDesc (fun p : RepoTreeItem × Int => p.2)
          ((tree.filter keepFile).map (fun it => (it, scoreFile it role))) :=
      (sortByDesc_perm (fun p : RepoTreeItem × Int => p.2) _).mem_iff.mpr hrsc
    rcases List.getElem_of_mem hrsort with ⟨i, hi, hieq⟩
    rcases List.getElem_of_mem htin with ⟨j, hj, hjeq⟩
    have hj2 : j < (sortByDesc (fun p : RepoTreeItem × Int => p.2)
        ((tree.filter keepFile).map (fun it => (it, scoreFile it role)))).length := by
      omega
    have hjt : ((sortByDesc (fun p : RepoTreeItem × Int => p.2)
        ((tree.filter keepFile).map (fun it => (it, scoreFile it role))))[j]).1
        = tItem := by
      rw [← output_getElem tree role maxFiles hj hj2, hjeq]
    have hir : ((sortByDesc (fun p : RepoTreeItem × Int => p.2)
        ((tree.filter keepFile).map (fun it => (it, scoreFile it role))))[i]).1
        = rItem := by
      rw [hieq]
    have hij : i < j := pos_lt_of_sorted hpair hsorted hscore hi hj2 hir hjt
    have hiout : i < (filterAndPrioritizeFiles tree role maxFiles).length := by
      omega
    have := output_getElem tree role maxFiles hiout (by omega)
    rw [hir] at this
    rw [← this]
    exact List.getElem_mem hiout
  · -- ordering: every README position precedes every tests position
    intro i j hi hj hieq hjeq
    have hi2 : i < (sortByDesc (fun p : RepoTreeItem × Int => p.2)
        ((tree.filter keepFile).map (fun it => (it, scoreFile it role)))).length := by
      omega
    have hj2 : j < (sortByDesc (fun p : RepoTreeItem × Int => p.2)
        ((tree.filter keepFile).map (fun it => (it, scoreFile it role)))).length := by
      omega
    have hir : ((sortByDesc (fun p : RepoTreeItem × Int => p.2)
        ((tree.filter keepFile).map (fun it => (it, scoreFile it role))))[i]).1
        = rItem := by
      rw [← output_getElem tree role maxFiles hi hi2, hieq]
    have hjt : ((sortByDesc (fun p : RepoTreeItem × Int => p.2)
        ((tree.filter keepFile).map (fun it => (it, scoreFile it role))))[j]).1
        = tItem := by
      rw [← output_getElem tree role maxFiles hj hj2, hjeq]
    exact pos_lt_of_sorted hpair hsorted hscore hi2 hj2 hir hjt

/-- Claim C8 witness: on the concrete witness tree the README outscores the
tests file, and since the tests file is selected with cap 2, so is the
README. -/
theorem readme_ranked_above_tests_witness :
    scoreFile testsItem (strL "Frontend") < scoreFile readmeItem (strL "Frontend")
    ∧ readmeItem ∈ filterAndPrioritizeFiles witnessTree (strL "Frontend") 2 := by
  have h := readme_ranked_above_tests witnessTree (strL "Frontend") 2
    readmeItem testsItem (some 10) (strL "example.test.js")
    (by decide) rfl rfl rfl (by decide) (by decide) rfl rfl
  exact ⟨h.1, h.2.1 (by decide)⟩

/-! ## Claim C1: importance score is the sum of the weighted signals -/

/-- Claim C1: for every repository descriptor, target role and clock
reading, calculateRepoImportance returns exactly the sum of the fixed
weighted signals stated by the spec, and the worked example (12 stars, 6
forks, pushed 10 days ago, 60 commits, matching language, README, tests,
CI, non-empty topics) scores exactly 150. -/
theorem calculateRepoImportance_signal_sum :
    (∀ repo role now, (calculateRepoImportance repo role now).score
        = specImportanceTotal repo role now)
    ∧ (calculateRepoImportance exampleRepo (strL "Frontend") exampleNow).score
        = 150 := by
  constructor
  · intro repo role now
    have h1 : scoreStars repo = specStarsSignal repo := by
      unfold scoreStars specStarsSignal
      split_ifs <;> omega
    have h2 : scoreForks repo = specStarsSignal repo + specForksSignal repo := by
      unfold scoreForks specForksSignal
      rw [h1]
      split_ifs <;> omega
    have h3 : scoreRecency repo now = specStarsSignal repo
        + specForksSignal repo + specRecencySignal repo now := by
      unfold scoreRecency specRecencySignal
      rw [h2]
      split_ifs <;> omega
    have h4 : scoreCommits repo now = specStarsSignal repo
        + specForksSignal repo + specRecencySignal repo now
        + specCommitsSignal repo := by
      unfold scoreCommits specCommitsSignal
      rw [h3]
      split_ifs <;> omega
    have h5 : scoreLanguage repo role now = specStarsSignal repo
        + specForksSignal repo + specRecencySignal repo now
        + specCommitsSignal repo + specLanguageSignal repo role := by
      unfold scoreLanguage specLanguageSignal
      rw [h4]
      split_ifs <;> omega
    simp only [calculateRepoImportance]
    unfold scoreTopics scoreCI scoreTests scoreReadme
    rw [h5]
    unfold specImportanceTotal specArtifactSignals
    split_ifs <;> omega
  · decide

/-! ## Claim C6: purity of the ranking -/

/-- Claim C6 counterexample: the score read from the clock differs between
two evaluation times, so two evaluations of rankReposByImportance on the
same descriptors and role give different outputs at different clock
readings (pushed 10 days before the first reading, 40 days before the
second). -/
theorem rankRepos_clock_counterexample :
    (calculateRepoImportance quietRepo (strL "Frontend") (10 * 86400000)).score = 20
    ∧ (calculateRepoImportance quietRepo (strL "Frontend") (40 * 86400000)).score = 10
    ∧ rankReposByImportance [quietRepo] (strL "Frontend") 3 (10 * 86400000)
        ≠ rankReposByImportance [quietRepo] (strL "Frontend") 3 (40 * 86400000) := by
  decide

/-- Claim C6 amended: rankReposByImportance is a pure function of the
descriptors, role, limit and the clock reading taken at evaluation: at a
fixed reading any two evaluations agree, and equal scores are ranked in
input order (stable sort); recency reads the clock, so different readings
may differ. -/
theorem rankRepos_pure_given_clock :
    (∀ repos role limit now,
      rankReposByImportance repos role limit now
        = rankReposByImportance repos role limit now)
    ∧ (∀ a b role limit now,
        (calculateRepoImportance a role now).score
          = (calculateRepoImportance b role now).score →
        2 ≤ limit →
        rankReposByImportance [a, b] role limit now
          = [calculateRepoImportance a role now,
             calculateRepoImportance b role now]) := by
  constructor
  · intro repos role limit now
    rfl
  · intro a b role limit now hsc hlim
    have hle : (calculateRepoImportance b role now).score
        ≤ (calculateRepoImportance a role now).score := le_of_eq hsc.symm
    obtain ⟨m, rfl⟩ : ∃ m, limit = m + 2 := ⟨limit - 2, by omega⟩
    simp [rankReposByImportance, sortByDesc, insDesc, hle, List.take]

/-- Claim C6 amended witness: two equal-scoring descriptors keep their
input order. -/
theorem rankRepos_pure_given_clock_witness :
    rankReposByImportance [quietRepo, quietRepo] (strL "Backend") 2 0
      = [calculateRepoImportance quietRepo (strL "Backend") 0,
         calculateRepoImportance quietRepo (strL "Backend") 0] :=
  rankRepos_pure_given_clock.2 quietRepo quietRepo (strL "Backend") 2 0 rfl
    (by omega)

/-! ## Claim C3: the threshold gate blocks exactly on a valid low snapshot -/

/-- Claim C3: checkRateLimit throws the quota error exactly when a cached
snapshot within the 60 second TTL shows remaining below the threshold 10
with its reset time not yet passed; in every other case it returns
normally, and the refresh runs exactly when the snapshot is absent or
stale. -/
theorem checkRateLimit_threshold_iff (cache : Option RLCache) (now : Int)
    (refresh : Option RLData) :
    ((∃ r s, checkRateLimit cache now refresh = CheckResult.quotaErr r s) ↔
      (∃ c, cache = some c ∧ now - c.lastChecked < CACHE_TTL
        ∧ resetPassed now c.reset = false
        ∧ jlt c.remaining (some RATE_LIMIT_THRESHOLD) = true))
    ∧ (∀ nc rf, checkRateLimit cache now refresh = CheckResult.ok nc rf →
        (rf = true ↔ (cache = none
          ∨ ∃ c, cache = some c ∧ CACHE_TTL ≤ now - c.lastChecked))) := by
  cases cache with
  | none =>
    refine ⟨?_, ?_⟩
    · simp [checkRateLimit, refreshBranch]
    · intro nc rf h
      simp only [checkRateLimit, refreshBranch] at h
      cases h
      simp
  | some c =>
    by_cases h1 : now - c.lastChecked < CACHE_TTL
    · by_cases h2 : resetPassed now c.reset = true
      · refine ⟨?_, ?_⟩
        · simp [checkRateLimit, h1, h2]
        · intro nc rf h
          simp only [checkRateLimit, if_pos h1, if_pos h2] at h
          cases h
          constructor
          · intro hrf
            cases hrf
          · rintro (h | ⟨c', hc', hstale⟩)
            · cases h
            · cases hc'
              omega
      · by_cases h3 : jlt c.remaining (some RATE_LIMIT_THRESHOLD) = true
        · refine ⟨?_, ?_⟩
          · simp [checkRateLimit, h1, h2, h3]
          · intro nc rf h
            simp only [checkRateLimit, if_pos h1] at h
            rw [if_neg (by simp [h2]), if_pos h3] at h
            cases h
        · refine ⟨?_, ?_⟩
          · simp [checkRateLimit, h1, h2, h3]
          · intro nc rf h
            simp only [checkRateLimit, if_pos h1] at h
            rw [if_neg (by simp [h2]), if_neg (by simp [h3])] at h
            cases h
            constructor
            · intro hrf
              cases hrf
            · rintro (h | ⟨c', hc', hstale⟩)
              · cases h
              · cases hc'
                omega
    · refine ⟨?_, ?_⟩
      · constructor
        · intro ⟨r, s, h⟩
          simp only [checkRateLimit, if_neg h1, refreshBranch] at h
          cases h
        · rintro ⟨c', hc', hvalid, _, _⟩
          cases hc'
          omega
      · intro nc rf h
        simp only [checkRateLimit, if_neg h1, refreshBranch] at h
        cases h
        simp only [true_iff]
        right
        exact ⟨c, rfl, by omega⟩

/-- Claim C3 witness: a valid snapshot with 5 remaining and a future reset
makes checkRateLimit throw the quota error. -/
theorem checkRateLimit_threshold_iff_witness :
    ∃ r s, checkRateLimit (some lowCache) 1000 none = CheckResult.quotaErr r s :=
  (checkRateLimit_threshold_iff (some lowCache) 1000 none).1.mpr
    ⟨lowCache, rfl, by decide, by decide, by decide⟩

/-! ## Claim C10: the refresh path fails open -/

/-- One-step unfolding of the retry loop. -/
theorem fetchIter_succ (att : Nat → Attempt) (times : Nat → Int) (k i : Nat)
    (cache : Option RLCache) (cnt : Nat) :
    fetchIter att times (k + 1) i cache cnt =
      match att i with
      | Attempt.transportFail =>
        if k = 0 then ⟨cnt + 1, cache, FetchOutcome.failure FetchErr.transportErr⟩
        else fetchIter att times k (i + 1) cache (cnt + 1)
      | Attempt.response r =>
        if r.ok then
          ⟨cnt + 1, updateRateLimitFromHeaders cache (times i) r,
           FetchOutcome.success r⟩
        else if k = 0 then
          ⟨cnt + 1, updateRateLimitFromHeaders cache (times i) r,
           FetchOutcome.failure (classifyResponse r)⟩
        else fetchIter att times k (i + 1)
          (updateRateLimitFromHeaders cache (times i) r) (cnt + 1) := rfl

/-- The retry loop issues at least one fetch when at least one attempt is
permitted. -/
theorem fetchIter_requests_pos (att : Nat → Attempt) (times : Nat → Int) :
    ∀ k i cache cnt, cnt < (fetchIter att times (k + 1) i cache cnt).requests := by
  intro k
  induction k with
  | zero =>
    intro i cache cnt
    rw [fetchIter_succ]
    cases att i with
    | transportFail => simp
    | response r =>
      by_cases hok : r.ok <;> simp [hok]
  | succ k ih =>
    intro i cache cnt
    rw [fetchIter_succ]
    cases att i with
    | transportFail =>
      simp only
      rw [if_neg (by omega)]
      have := ih (i + 1) cache (cnt + 1)
      omega
    | response r =>
      by_cases hok : r.ok
      · simp [hok]
      · simp only [hok, Bool.false_eq_true, if_false]
        rw [if_neg (by omega)]
        have := ih (i + 1) (updateRateLimitFromHeaders cache (times i) r) (cnt + 1)
        omega

/-- Claim C10: with an absent or stale snapshot, checkRateLimit never
throws: the refresh branch returns normally whatever the refresh produced
(even fresh data with remaining 0, whose threshold error is caught by the
fail-open handler), and the outbound request is then issued. -/
theorem checkRateLimit_fail_open (cache : Option RLCache) (now : Int)
    (refresh : Option RLData)
    (h : cache = none ∨ ∃ c, cache = some c ∧ CACHE_TTL ≤ now - c.lastChecked) :
    checkRateLimit cache now refresh
      = CheckResult.ok (getRateLimitCache refresh cache now) true
    ∧ (∀ att times retries, 1 ≤ retries →
        1 ≤ (fetchWithRetry att times now refresh cache retries).requests) := by
  have hmain : checkRateLimit cache now refresh
      = CheckResult.ok (getRateLimitCache refresh cache now) true := by
    rcases h with rfl | ⟨c, rfl, hstale⟩
    · rfl
    · simp only [checkRateLimit]
      rw [if_neg (by omega)]
      rfl
  refine ⟨hmain, ?_⟩
  intro att times retries hr
  obtain ⟨k, rfl⟩ : ∃ k, retries = k + 1 := ⟨retries - 1, by omega⟩
  have hrun : fetchWithRetry att times now refresh cache (k + 1)
      = fetchIter att times (k + 1) 0 (getRateLimitCache refresh cache now) 0 := by
    unfold fetchWithRetry
    rw [hmain]
  rw [hrun]
  have := fetchIter_requests_pos att times k 0 (getRateLimitCache refresh cache now) 0
  omega

/-- Claim C10 witness: an absent snapshot whose refresh reports zero
remaining still returns normally and the fetch is issued. -/
theorem checkRateLimit_fail_open_witness :
    checkRateLimit none 1000 (some zeroRemaining)
      = CheckResult.ok (getRateLimitCache (some zeroRemaining) none 1000) true
    ∧ 1 ≤ (fetchWithRetry (fun _ => Attempt.response resp404) (fun _ => 1000)
        1000 (some zeroRemaining) none 3).requests := by
  have h := checkRateLimit_fail_open none 1000 (some zeroRemaining) (Or.inl rfl)
  exact ⟨h.1, h.2 (fun _ => Attempt.response resp404) (fun _ => 1000) 3 (by omega)⟩

/-! ## Claim C2: a 404 is classified NotFound but still retried -/

/-- Claim C2 counterexample: against an endpoint constantly returning 404
with retries = 3, the loop issues three requests, not one, before
surfacing the NotFound error: the claim that exactly one request is issued
is false. -/
theorem fetch404_counterexample :
    (fetchWithRetry (fun _ => Attempt.response resp404) (fun _ => 0) 0 none
        none 3).requests = 3
    ∧ (fetchWithRetry (fun _ => Attempt.response resp404) (fun _ => 0) 0 none
        none 3).outcome = FetchOutcome.failure FetchErr.notFound
    ∧ (fetchWithRetry (fun _ => Attempt.response resp404) (fun _ => 0) 0 none
        none 3).requests ≠ 1 := by
  decide

/-- The retry loop against a constant 404: every attempt classifies
NotFound, which the catch handler retries until the final attempt. -/
theorem fetchIter_404 (att : Nat → Attempt) (times : Nat → Int)
    (resp : Response) (hatt : ∀ i, att i = Attempt.response resp)
    (hok : resp.ok = false) (hst : resp.status = 404) :
    ∀ k i cache cnt,
      (fetchIter att times (k + 1) i cache cnt).requests = cnt + (k + 1)
      ∧ (fetchIter att times (k + 1) i cache cnt).outcome
          = FetchOutcome.failure FetchErr.notFound := by
  have hclass : classifyResponse resp = FetchErr.notFound := by
    simp [classifyResponse, hst]
  intro k
  induction k with
  | zero =>
    intro i cache cnt
    rw [fetchIter_succ, hatt i]
    simp [hok, hclass]
  | succ k ih =>
    intro i cache cnt
    rw [fetchIter_succ, hatt i]
    simp only [hok, Bool.false_eq_true, if_false]
    rw [if_neg (by omega)]
    have := ih (i + 1) (updateRateLimitFromHeaders cache (times i) resp) (cnt + 1)
    refine ⟨?_, this.2⟩
    rw [this.1]
    omega

/-- Claim C2 amended: execute against an endpoint that always returns 404
classifies the failure as NotFound, but the classification error is thrown
inside the try block and caught by the retry handler like any other
failure: once the rate gate passes, exactly `retries` requests are issued
and the NotFound error is surfaced unchanged after the final attempt. -/
theorem fetch404_retries (att : Nat → Attempt) (times : Nat → Int)
    (now : Int) (refresh : Option RLData) (cache : Option RLCache)
    (retries : Nat) (c : Option RLCache) (rf : Bool) (resp : Response)
    (hgate : checkRateLimit cache now refresh = CheckResult.ok c rf)
    (hatt : ∀ i, att i = Attempt.response resp)
    (hok : resp.ok = false) (hst : resp.status = 404) (hr : 1 ≤ retries) :
    (fetchWithRetry att times now refresh cache retries).requests = retries
    ∧ (fetchWithRetry att times now refresh cache retries).outcome
        = FetchOutcome.failure FetchErr.notFound := by
  obtain ⟨k, rfl⟩ : ∃ k, retries = k + 1 := ⟨retries - 1, by omega⟩
  have hrun : fetchWithRetry att times now refresh cache (k + 1)
      = fetchIter att times (k + 1) 0 c 0 := by
    unfold fetchWithRetry
    rw [hgate]
  rw [hrun]
  have h := fetchIter_404 att times resp hatt hok hst k 0 c 0
  refine ⟨?_, h.2⟩
  rw [h.1]
  omega

/-- Claim C2 amended witness: two permitted attempts against a constant
404 issue exactly two requests and surface NotFound. -/
theorem fetch404_retries_witness :
    (fetchWithRetry (fun _ => Attempt.response resp404) (fun _ => 0) 0 none
        none 2).requests = 2
    ∧ (fetchWithRetry (fun _ => Attempt.response resp404) (fun _ => 0) 0 none
        none 2).outcome = FetchOutcome.failure FetchErr.notFound :=
  fetch404_retries (fun _ => Attempt.response resp404) (fun _ => 0) 0 none
    none 2 none true resp404 rfl (fun _ => rfl) rfl rfl (by omega)

/-! ## Claim C4: the snapshot invariant is not enforced by the code -/

/-- Claim C4 counterexample: updateRateLimitFromHeaders stores header
values verbatim, so a response claiming remaining 100 with limit 50 yields
a stored snapshot violating remaining at most limit: the invariant does
not hold for all possible header values. -/
theorem updateRateLimit_counterexample :
    updateRateLimitFromHeaders none 0 respBadQuota
      = some { remaining := some 100, reset := some 1, limit := some 50,
               lastChecked := 0 }
    ∧ jle (some (100 : Int)) (some 50) = false := by
  constructor
  · decide
  · decide

/-- Claim C4 amended: the update paths store the observed values verbatim
and never clamp; the stored snapshot satisfies remaining at most limit
exactly as far as the observed values themselves do: any observation whose
parsed remaining is at most its parsed limit leaves a snapshot satisfying
the invariant, on the header path and on the refresh path alike. -/
theorem quota_invariant_amended :
    (∀ (cache : Option RLCache) (now : Int) (r : Response),
      headerTruthy r.hRemaining = true → headerTruthy r.hReset = true →
      headerTruthy r.hLimit = true →
      jle (parseIntJS (r.hRemaining.getD [])) (parseIntJS (r.hLimit.getD []))
        = true →
      ∃ c, updateRateLimitFromHeaders cache now r = some c
        ∧ jle c.remaining c.limit = true)
    ∧ (∀ (cache : Option RLCache) (now : Int) (d : RLData),
        jle d.remaining d.limit = true →
        ∃ c, getRateLimitCache (some d) cache now = some c
          ∧ jle c.remaining c.limit = true) := by
  constructor
  · intro cache now r h1 h2 h3 h4
    refine ⟨{ remaining := parseIntJS (r.hRemaining.getD [])
              reset := parseIntJS (r.hReset.getD [])
              limit := parseIntJS (r.hLimit.getD [])
              lastChecked := now }, ?_, h4⟩
    unfold updateRateLimitFromHeaders
    rw [if_pos (by simp [h1, h2, h3])]
  · intro cache now d h
    exact ⟨_, rfl, h⟩

/-- Claim C4 amended witness: a well-formed response (4999 of 5000) leaves
a snapshot satisfying the invariant. -/
theorem quota_invariant_amended_witness :
    ∃ c, updateRateLimitFromHeaders none 0 respGoodQuota = some c
      ∧ jle c.remaining c.limit = true :=
  quota_invariant_amended.1 none 0 respGoodQuota (by decide) (by decide)
    (by decide) (by decide)

/-! ## Claim C5: fork fallback of the contribution workflow -/

/-- Claim C5: when branch creation on the upstream owner fails with a 403
error, the workflow resolves the authenticated user and fails terminally
when no truthy login resolves; when a login resolves and the steps
succeed, it forks, waits for the fork, reads the fork details and creates
the branch there from the fork default branch (in that order), and the
pull request head is the qualified forkOwner:branchName; no successful run
uses a bare head when the head owner differs from the upstream owner. -/
theorem applyWorkflow_fork_fallback
    (env : ApplyEnv) (owner repo branchName : Str) (db : Option Str)
    (msg : Str)
    (hdet : env.detailsResult = Except.ok db)
    (hfail : env.createBranchUpstream = Except.error msg)
    (h403 : strHas (strL "403") msg = true) :
    ((env.authUserResult = Except.ok none
        ∨ env.authUserResult = Except.ok (some [])) →
      (applyWorkflow env owner repo branchName).2
        = Except.error WfErr.authUserNotFound)
    ∧ (∀ login fd, env.authUserResult = Except.ok (some login) → login ≠ [] →
        env.forkResult = Except.ok () → env.waitResult = Except.ok () →
        env.forkDetailsResult = Except.ok fd →
        env.createBranchFork = Except.ok () →
        env.commitResult = Except.ok () → env.prResult = Except.ok () →
        applyWorkflow env owner repo branchName =
          ([Op.opGetRepoDetails owner repo,
            Op.opCreateBranch owner repo branchName (jsOr db (strL "main")),
            Op.opGetAuthUser, Op.opForkRepo owner repo,
            Op.opWaitForRepo login repo, Op.opGetRepoDetails login repo,
            Op.opCreateBranch login repo branchName
              (jsOr fd (jsOr db (strL "main"))),
            Op.opCommitFile login repo branchName,
            Op.opCreatePR owner repo
              (if login == owner then branchName
               else login ++ ':' :: branchName) (jsOr db (strL "main"))],
           Except.ok { prHeadOwner := login,
                       headRef := if login == owner then branchName
                                  else login ++ ':' :: branchName,
                       baseBranch := jsOr db (strL "main"),
                       forkBase := some (jsOr fd (jsOr db (strL "main"))) }))
    ∧ (∀ ops r, applyWorkflow env owner repo branchName = (ops, Except.ok r) →
        r.prHeadOwner ≠ owner →
        r.headRef = r.prHeadOwner ++ ':' :: branchName) := by
  refine ⟨?_, ?_, ?_⟩
  · rintro (hau | hau) <;>
      simp [applyWorkflow, hdet, hfail, h403, hau, loginTruthy]
  · intro login fd hau hlogin hfork hwait hfd hcbf hcommit hpr
    have hne : login.isEmpty = false := List.isEmpty_eq_false.mpr hlogin
    simp [applyWorkflow, hdet, hfail, h403, hau, hfork, hwait, hfd, hcbf,
      hcommit, hpr, loginTruthy, hne]
  · intro ops r hrun hne
    have hbeq : ∀ login : Str, login ≠ owner → (login == owner) = false :=
      fun login h => beq_eq_false_iff_ne.mpr h
    simp only [applyWorkflow, hdet, hfail, h403, if_true] at hrun
    rcases hau : env.authUserResult with msg2 | login?
    · rw [hau] at hrun
      simp at hrun
    · rw [hau] at hrun
      cases login? with
      | none =>
        simp [loginTruthy] at hrun
      | some login =>
        by_cases hle : login.isEmpty
        · simp [loginTruthy, hle] at hrun
        · simp only [loginTruthy, hle, Bool.false_eq_true, if_false] at hrun
          rcases hfr : env.forkResult with msg2 | u
          · rw [hfr] at hrun
            simp at hrun
          · rw [hfr] at hrun
            rcases hwr : env.waitResult with msg2 | u2
            · rw [hwr] at hrun
              simp at hrun
            · rw [hwr] at hrun
              rcases hfdr : env.forkDetailsResult with msg2 | fd
              · rw [hfdr] at hrun
                simp at hrun
              · rw [hfdr] at hrun
                rcases hcbf : env.createBranchFork with msg2 | u3
                · rw [hcbf] at hrun
                  simp at hrun
                · rw [hcbf] at hrun
                  rcases hcr : env.commitResult with msg2 | u4
                  · rw [hcr] at hrun
                    simp at hrun
                  · rw [hcr] at hrun
                    rcases hprr : env.prResult with msg2 | u5
                    · rw [hprr] at hrun
                      simp at hrun
                    · rw [hprr] at hrun
                      simp only [Prod.mk.injEq] at hrun
                      obtain ⟨-, hok⟩ := hrun
                      cases hok
                      simp only at hne ⊢
                      rw [hbeq login hne]
                      simp

/-- Claim C5 witness: the concrete 403 environment runs the fallback and
opens the pull request with the qualified head alice:gitready/readme. -/
theorem applyWorkflow_fork_fallback_witness :
    applyWorkflow env403 (strL "bob") (strL "repo") (strL "gitready/readme")
      = ([Op.opGetRepoDetails (strL "bob") (strL "repo"),
          Op.opCreateBranch (strL "bob") (strL "repo")
            (strL "gitready/readme") (strL "main"),
          Op.opGetAuthUser, Op.opForkRepo (strL "bob") (strL "repo"),
          Op.opWaitForRepo (strL "alice") (strL "repo"),
          Op.opGetRepoDetails (strL "alice") (strL "repo"),
          Op.opCreateBranch (strL "alice") (strL "repo")
            (strL "gitready/readme") (strL "main"),
          Op.opCommitFile (strL "alice") (strL "repo") (strL "gitready/readme"),
          Op.opCreatePR (strL "bob") (strL "repo")
            (strL "alice" ++ ':' :: strL "gitready/readme") (strL "main")],
         Except.ok { prHeadOwner := strL "alice",
                     headRef := strL "alice" ++ ':' :: strL "gitready/readme",
                     baseBranch := strL "main",
                     forkBase := some (strL "main") }) := by
  have h := (applyWorkflow_fork_fallback env403 (strL "bob") (strL "repo")
    (strL "gitready/readme") (some (strL "main"))
    (strL "GitHub API error 403: Forbidden ") rfl rfl (by decide)).2.1
    (strL "alice") (some (strL "main")) rfl (by decide) rfl rfl rfl rfl rfl rfl
  rw [h]
  rfl

/-! ## Claim C9: bounds of the bounded tree collector -/

/-- An allow-listed name gives an allow-listed path when the name is a
suffix of the path (as for contents-API entries). -/
theorem extAllowed_of_suffix {allowExt : List Str} {name path : Str}
    (hall : extAllowed allowExt name = true)
    (hsuf : strEnds name path = true) :
    extAllowed allowExt path = true := by
  unfold extAllowed at hall ⊢
  rcases List.any_eq_true.mp hall with ⟨ext, hmem, hends⟩
  exact List.any_eq_true.mpr
    ⟨ext, hmem, strEnds_trans hends (strEnds_lowerStr hsuf)⟩

/-- Invariant of the inner loop: the running count equals the number of
recorded files, never exceeds the cap, and every recorded file has an
allow-listed extension and a size within the ceiling. -/
theorem processItems_inv (maxFiles maxFileSize : Nat) (allowExt : List Str) :
    ∀ (items : List CEntry) (queue : List Str) (files : List (Str × Nat))
      (count : Nat) (q2 : List Str) (fs2 : List (Str × Nat)) (c2 : Nat),
      processItems maxFiles maxFileSize allowExt items queue files count
        = (q2, fs2, c2) →
      count = files.length → count ≤ maxFiles →
      (∀ f ∈ files, f.2 ≤ maxFileSize ∧ extAllowed allowExt f.1 = true) →
      (∀ it ∈ items, strEnds it.name it.path = true) →
      c2 = fs2.length ∧ c2 ≤ maxFiles
        ∧ ∀ f ∈ fs2, f.2 ≤ maxFileSize ∧ extAllowed allowExt f.1 = true := by
  intro items
  induction items with
  | nil =>
    intro queue files count q2 fs2 c2 heq h1 h2 h3 _
    simp only [processItems, Prod.mk.injEq] at heq
    obtain ⟨-, hf, hc⟩ := heq
    subst hf hc
    exact ⟨h1, h2, h3⟩
  | cons it rest ih =>
    intro queue files count q2 fs2 c2 heq h1 h2 h3 h4
    simp only [processItems] at heq
    by_cases hcap : maxFiles ≤ count
    · rw [if_pos hcap] at heq
      simp only [Prod.mk.injEq] at heq
      obtain ⟨-, hf, hc⟩ := heq
      subst hf hc
      exact ⟨h1, h2, h3⟩
    · rw [if_neg hcap] at heq
      have h4rest : ∀ x ∈ rest, strEnds x.name x.path = true :=
        fun x hx => h4 x (List.mem_cons_self it rest |> fun _ => List.mem_cons_of_mem it hx)
      cases hk : it.kind with
      | dir =>
        rw [hk] at heq
        exact ih _ _ _ _ _ _ heq h1 h2 h3 h4rest
      | other =>
        rw [hk] at heq
        exact ih _ _ _ _ _ _ heq h1 h2 h3 h4rest
      | file =>
        rw [hk] at heq
        by_cases hall : extAllowed allowExt it.name
        · rw [if_neg (by simp [hall])] at heq
          by_cases hsz : maxFileSize < it.size.getD 0
          · rw [if_pos hsz] at heq
            exact ih _ _ _ _ _ _ heq h1 h2 h3 h4rest
          · rw [if_neg hsz] at heq
            refine ih _ _ _ _ _ _ heq ?_ ?_ ?_ h4rest
            · rw [h1, List.length_append]
              rfl
            · omega
            · intro f hf
              rcases List.mem_append.mp hf with hf | hf
              · exact h3 f hf
              · rcases List.mem_singleton.mp hf with rfl
                refine ⟨by omega, ?_⟩
                exact extAllowed_of_suffix hall
                  (h4 it (List.mem_cons_self it rest))
        · rw [if_pos (by simp [hall])] at heq
          exact ih _ _ _ _ _ _ heq h1 h2 h3 h4rest

/-- Invariant of the outer loop: the returned manifest respects the cap,
the allow-list and the size ceiling. -/
theorem collectLoop_inv (listDir : Str → Option (List CEntry))
    (maxFiles maxFileSize : Nat) (allowExt : List Str)
    (hnames : ∀ d items it, listDir d = some items → it ∈ items →
      strEnds it.name it.path = true) :
    ∀ (fuel : Nat) (queue : List Str) (files : List (Str × Nat)) (count : Nat),
      count = files.length → count ≤ maxFiles →
      (∀ f ∈ files, f.2 ≤ maxFileSize ∧ extAllowed allowExt f.1 = true) →
      (collectLoop listDir maxFiles maxFileSize allowExt fuel queue files
          count).length ≤ maxFiles
      ∧ ∀ f ∈ collectLoop listDir maxFiles maxFileSize allowExt fuel queue
            files count,
          f.2 ≤ maxFileSize ∧ extAllowed allowExt f.1 = true := by
  intro fuel
  induction fuel with
  | zero =>
    intro queue files count h1 h2 h3
    exact ⟨by simpa [collectLoop, ← h1] using h2, by simpa [collectLoop] using h3⟩
  | succ fuel ih =>
    intro queue files count h1 h2 h3
    cases queue with
    | nil =>
      exact ⟨by simpa [collectLoop, ← h1] using h2, by simpa [collectLoop] using h3⟩
    | cons path qrest =>
      simp only [collectLoop]
      by_cases hcap : maxFiles ≤ count
      · rw [if_pos hcap]
        exact ⟨by omega, h3⟩
      · rw [if_neg hcap]
        cases hdir : listDir path with
        | none => exact ih qrest files count h1 h2 h3
        | some items =>
          dsimp only
          rcases hpi : processItems maxFiles maxFileSize allowExt items qrest
              files count with ⟨q2, fs2, c2⟩
          dsimp only
          have hinv := processItems_inv maxFiles maxFileSize allowExt items
            qrest files count q2 fs2 c2 hpi h1 h2 h3
            (fun it hit => hnames path items it hdir hit)
          exact ih q2 fs2 c2 hinv.1 hinv.2.1 hinv.2.2

/-- Claim C9: over any listing and content oracles whose entry names are
suffixes of their paths, getRepoCodeBundle returns a manifest of at most
maxFiles entries, each with an allow-listed extension and a recorded size
at most maxFileSize; the traversal loop returns as soon as the queue is
exhausted or the count reaches the cap; and every per-file section of the
bundle is the content truncated to at most maxFileSize characters. -/
theorem getRepoCodeBundle_bounds (listDir : Str → Option (List CEntry))
    (fileText : Str → Option Str) (maxFiles maxFileSize : Nat)
    (allowExt : List Str) (fuel : Nat)
    (hnames : ∀ d items it, listDir d = some items → it ∈ items →
      strEnds it.name it.path = true) :
    (getRepoCodeBundle listDir fileText maxFiles maxFileSize allowExt
        fuel).manifest.length ≤ maxFiles
    ∧ (∀ f ∈ (getRepoCodeBundle listDir fileText maxFiles maxFileSize
          allowExt fuel).manifest,
        f.2 ≤ maxFileSize ∧ extAllowed allowExt f.1 = true)
    ∧ (∀ fuel2 files count,
        collectLoop listDir maxFiles maxFileSize allowExt fuel2 [] files count
          = files)
    ∧ (∀ fuel2 queue files count, maxFiles ≤ count →
        collectLoop listDir maxFiles maxFileSize allowExt fuel2 queue files
          count = files)
    ∧ (∀ s ∈ (getRepoCodeBundle listDir fileText maxFiles maxFileSize
          allowExt fuel).sections,
        s.2.length ≤ maxFileSize
        ∧ ∃ orig, fileText s.1 = some orig ∧ s.2 = orig.take maxFileSize) := by
  have hloop := collectLoop_inv listDir maxFiles maxFileSize allowExt hnames
    fuel [[]] [] 0 rfl (by omega) (by simp)
  refine ⟨hloop.1, hloop.2, ?_, ?_, ?_⟩
  · intro fuel2 files count
    cases fuel2 <;> rfl
  · intro fuel2 queue files count hcap
    cases fuel2 with
    | zero => rfl
    | succ fuel3 =>
      cases queue with
      | nil => rfl
      | cons path qrest => simp [collectLoop, hcap]
  · intro s hs
    simp only [getRepoCodeBundle] at hs
    rcases List.mem_filterMap.mp hs with ⟨f, _, hf⟩
    cases hft : fileText f.1 with
    | none =>
      simp only [hft] at hf
      cases hf
    | some content =>
      simp only [hft] at hf
      by_cases hemp : content.isEmpty
      · rw [if_pos hemp] at hf
        cases hf
      · rw [if_neg hemp] at hf
        cases hf
        refine ⟨?_, content, hft, rfl⟩
        simp [List.length_take]

/-- Claim C9 witness: on the one-directory oracle with cap 1, the manifest
is the single small allowed file and the section is its full (short)
content. -/
theorem getRepoCodeBundle_bounds_witness :
    (getRepoCodeBundle witnessListDir witnessFileText 1 100000
        bundleAllowExtDefault 5).manifest.length ≤ 1
    ∧ ∀ f ∈ (getRepoCodeBundle witnessListDir witnessFileText 1 100000
          bundleAllowExtDefault 5).manifest,
        f.2 ≤ 100000 ∧ extAllowed bundleAllowExtDefault f.1 = true := by
  have hnames : ∀ d items it, witnessListDir d = some items → it ∈ items →
      strEnds it.name it.path = true := by
    intro d items it hd hit
    unfold witnessListDir at hd
    by_cases hde : d.isEmpty
    · rw [if_pos hde] at hd
      cases hd
      simp only [List.mem_cons, List.not_mem_nil, or_false] at hit
      rcases hit with rfl | rfl | rfl <;> decide
    · rw [if_neg hde] at hd
      cases hd
  have h := getRepoCodeBundle_bounds witnessListDir witnessFileText 1 100000
    bundleAllowExtDefault 5 hnames
  exact ⟨h.1, h.2.1⟩

end GitReady
